import Mathlib

/-!
Verification of the currency-swap application: a shallow embedding of the
token-catalog builder (`processTokenData`), the wallet-balance priority
sorter (`getPriority` / `sortedBalances`), the swap-form state machine of
the `App` component (token selection, amount entry, quote recomputation,
swap trigger and settle timer), and the three `sum_to_n` implementations.

Modelling conventions:
* JavaScript numbers are modelled exactly, as rationals extended with
  `NaN` and the two infinities (`JsNum`).  IEEE-754 double rounding is
  idealised away: arithmetic is exact.  Overflow of decimal literals to
  `Infinity` is not modelled; the `Infinity` literal itself is.
* String-to-number conversion follows ECMAScript: `jsNumber` models the
  `Number(string)` coercion (full-string match, whitespace trimming,
  decimal / hex / octal / binary literals, `Infinity`), `jsParseFloat`
  models `parseFloat` (leading-whitespace trim, longest valid decimal
  prefix, `Infinity`; no radix prefixes).  The modelled whitespace set is
  space, tab, newline, carriage return.
* `toFixed(6)` follows the ECMAScript algorithm: the integer `n`
  minimising `|n / 10^6 - x|`, ties resolved to the larger `n`, applied
  to the magnitude with the sign prepended.
* Rational arithmetic is routed through kernel-computable wrappers
  (`qAdd`, `qMul`, `qDiv`, `qNeg`, `qBlt`, `qBle`) built on `Rat.divInt`,
  each proved equal to the corresponding Mathlib operation, so that all
  model functions evaluate by `decide`.
-/

/-- Kernel-computable multiplication on `ℚ` (the library `Rat.mul` is
irreducible and does not reduce under `decide`). -/
def qMul (a b : ℚ) : ℚ := Rat.divInt (a.num * b.num) ((a.den : ℤ) * (b.den : ℤ))

/-- Kernel-computable division on `ℚ`; division by zero yields zero, as in
Mathlib. -/
def qDiv (a b : ℚ) : ℚ := Rat.divInt (a.num * (b.den : ℤ)) ((a.den : ℤ) * b.num)

/-- Kernel-computable addition on `ℚ`. -/
def qAdd (a b : ℚ) : ℚ :=
  Rat.divInt (a.num * (b.den : ℤ) + b.num * (a.den : ℤ)) ((a.den : ℤ) * (b.den : ℤ))

/-- Kernel-computable negation on `ℚ`. -/
def qNeg (a : ℚ) : ℚ := Rat.divInt (-a.num) (a.den : ℤ)

/-- Kernel-computable strict-order test on `ℚ`. -/
def qBlt (a b : ℚ) : Bool := a.num * (b.den : ℤ) < b.num * (a.den : ℤ)

/-- Kernel-computable order test on `ℚ`. -/
def qBle (a b : ℚ) : Bool := a.num * (b.den : ℤ) ≤ b.num * (a.den : ℤ)

theorem qMul_eq (a b : ℚ) : qMul a b = a * b := by
  rw [qMul, Rat.divInt_eq_div]
  push_cast
  conv_rhs => rw [← Rat.num_div_den a, ← Rat.num_div_den b]
  rw [div_mul_div_comm]

theorem qDiv_eq (a b : ℚ) : qDiv a b = a / b := by
  rcases eq_or_ne b 0 with rfl | hb
  · simp [qDiv, Rat.divInt_eq_div]
  · rw [qDiv, Rat.divInt_eq_div]
    push_cast
    conv_rhs => rw [← Rat.num_div_den a, ← Rat.num_div_den b]
    rw [div_div_eq_mul_div, div_mul_eq_mul_div, div_div]

theorem qAdd_eq (a b : ℚ) : qAdd a b = a + b := by
  rw [qAdd, Rat.divInt_eq_div]
  push_cast
  have ha : ((a.den : ℚ)) ≠ 0 := by positivity
  have hb : ((b.den : ℚ)) ≠ 0 := by positivity
  conv_rhs => rw [← Rat.num_div_den a, ← Rat.num_div_den b, div_add_div _ _ ha hb]
  congr 1
  ring

theorem qNeg_eq (a : ℚ) : qNeg a = -a := by
  rw [qNeg, Rat.divInt_eq_div]
  push_cast
  rw [neg_div, Rat.num_div_den]

theorem qBlt_iff (a b : ℚ) : qBlt a b = true ↔ a < b := by
  rw [qBlt, decide_eq_true_iff, Rat.lt_def]

theorem qBle_iff (a b : ℚ) : qBle a b = true ↔ a ≤ b := by
  rw [qBle, decide_eq_true_iff, Rat.le_def]

theorem qBlt_eq_false_iff (a b : ℚ) : qBlt a b = false ↔ b ≤ a := by
  rw [← Bool.not_eq_true, qBlt_iff, not_lt]

theorem qBle_eq_false_iff (a b : ℚ) : qBle a b = false ↔ b < a := by
  rw [← Bool.not_eq_true, qBle_iff, not_le]

/-- The value space of a JavaScript number as far as this model needs it:
`NaN`, the two infinities, or an exact (rational) finite value. -/
inductive JsNum where
  | nan : JsNum
  | posInf : JsNum
  | negInf : JsNum
  | val (q : ℚ) : JsNum
deriving DecidableEq

namespace JsNum

/-- JavaScript `x > b` for a possibly non-finite `x` and finite `b`
(`NaN` compares false). -/
def gtQ : JsNum → ℚ → Bool
  | nan, _ => false
  | posInf, _ => true
  | negInf, _ => false
  | val a, b => qBlt b a

/-- JavaScript `x <= b` (`NaN` compares false). -/
def leQ : JsNum → ℚ → Bool
  | nan, _ => false
  | posInf, _ => false
  | negInf, _ => true
  | val a, b => qBle a b

/-- JavaScript `x >= b` (`NaN` compares false). -/
def geQ : JsNum → ℚ → Bool
  | nan, _ => false
  | posInf, _ => true
  | negInf, _ => false
  | val a, b => qBle b a

/-- JavaScript `isNaN(x)` for an already-converted number. -/
def isNaN : JsNum → Bool
  | nan => true
  | _ => false

/-- JavaScript multiplication of a number by a finite nonzero-or-zero
rational factor (the only case the model needs). -/
def mulQ : JsNum → ℚ → JsNum
  | nan, _ => nan
  | posInf, r => if qBlt 0 r then posInf else if qBlt r 0 then negInf else nan
  | negInf, r => if qBlt 0 r then negInf else if qBlt r 0 then posInf else nan
  | val a, r => val (qMul a r)

end JsNum

/-- The whitespace characters the model trims, a subset of ECMAScript
WhiteSpace/LineTerminator covering all inputs of interest. -/
def jsWhitespace (c : Char) : Bool :=
  c == ' ' || c == '\t' || c == '\n' || c == '\r'

/-- Numeric value of a digit list in base 10 (digits assumed valid). -/
def digitsToNat (ds : List Char) : ℕ :=
  ds.foldl (fun a c => a * 10 + (c.toNat - '0'.toNat)) 0

/-- The exact rational value of an integer digit string and a fraction
digit string, `intDs.fracDs`. -/
def decimalQ (intDs fracDs : List Char) : ℚ :=
  Rat.divInt ((digitsToNat intDs * 10 ^ fracDs.length + digitsToNat fracDs : ℕ) : ℤ)
    ((10 ^ fracDs.length : ℕ) : ℤ)

/-- Consume an optional sign; returns (isNegative, rest). -/
def parseSign : List Char → Bool × List Char
  | '-' :: r => (true, r)
  | '+' :: r => (false, r)
  | cs => (false, cs)

/-- Consume an optional ECMAScript ExponentPart (`e`/`E`, optional sign,
digits); when no well-formed exponent follows, nothing is consumed. -/
def applyExponent (q : ℚ) (cs : List Char) : ℚ × List Char :=
  match cs with
  | 'e' :: r1 | 'E' :: r1 =>
    let sr := parseSign r1
    let ds := sr.2.takeWhile Char.isDigit
    if ds.isEmpty then (q, cs)
    else if sr.1 then (qDiv q ((10 ^ digitsToNat ds : ℕ) : ℚ), sr.2.dropWhile Char.isDigit)
    else (qMul q ((10 ^ digitsToNat ds : ℕ) : ℚ), sr.2.dropWhile Char.isDigit)
  | _ => (q, cs)

/-- Parse an unsigned ECMAScript StrUnsignedDecimalLiteral (without
`Infinity`): `Digits [. Digits] [Exponent]` or `. Digits [Exponent]`.
Returns the exact value and the unconsumed suffix, or `none`. -/
def parseUnsignedDecimal (cs : List Char) : Option (ℚ × List Char) :=
  let intDs := cs.takeWhile Char.isDigit
  let r1 := cs.dropWhile Char.isDigit
  match intDs, r1 with
  | [], '.' :: r2 =>
    let fracDs := r2.takeWhile Char.isDigit
    if fracDs.isEmpty then none
    else some (applyExponent (decimalQ [] fracDs) (r2.dropWhile Char.isDigit))
  | [], _ => none
  | _ :: _, '.' :: r2 =>
    let fracDs := r2.takeWhile Char.isDigit
    some (applyExponent (decimalQ intDs fracDs) (r2.dropWhile Char.isDigit))
  | _ :: _, _ => some (applyExponent (decimalQ intDs []) r1)

/-- The character list of the `Infinity` literal. -/
def inftyChars : List Char := ['I', 'n', 'f', 'i', 'n', 'i', 't', 'y']

/-- ECMAScript `parseFloat`: trim leading whitespace, then take the longest
prefix that is a signed decimal literal or `Infinity`; `NaN` if none. -/
def jsParseFloat (s : String) : JsNum :=
  let t := s.data.dropWhile jsWhitespace
  let sr := parseSign t
  if inftyChars.isPrefixOf sr.2 then (if sr.1 then .negInf else .posInf)
  else
    match parseUnsignedDecimal sr.2 with
    | some (q, _) => .val (if sr.1 then qNeg q else q)
    | none => .nan

/-- Value of a digit in the given base, accepting letters for bases above
ten, or `none`. -/
def radixDigitVal (base : ℕ) (c : Char) : Option ℕ :=
  let v :=
    if '0' ≤ c ∧ c ≤ '9' then some (c.toNat - '0'.toNat)
    else if 'a' ≤ c ∧ c ≤ 'z' then some (c.toNat - 'a'.toNat + 10)
    else if 'A' ≤ c ∧ c ≤ 'Z' then some (c.toNat - 'A'.toNat + 10)
    else none
  match v with
  | some d => if d < base then some d else none
  | none => none

/-- Value of a nonempty all-valid digit list in the given base, or `none`. -/
def radixVal (base : ℕ) (ds : List Char) : Option ℕ :=
  if ds.isEmpty then none
  else
    ds.foldl
      (fun acc c =>
        match acc, radixDigitVal base c with
        | some a, some d => some (a * base + d)
        | _, _ => none)
      (some 0)

/-- A radix-prefixed numeric literal body (after `0x`/`0o`/`0b`). -/
def radixNum (base : ℕ) (ds : List Char) : JsNum :=
  match radixVal base ds with
  | some n => .val ((n : ℕ) : ℚ)
  | none => .nan

/-- Trim the modelled whitespace from both ends. -/
def jsTrim (cs : List Char) : List Char :=
  ((cs.dropWhile jsWhitespace).reverse.dropWhile jsWhitespace).reverse

/-- The signed-decimal arm of `Number(string)`: the whole remaining input
must be a signed decimal literal or `Infinity`. -/
def jsNumberDec (t : List Char) : JsNum :=
  let sr := parseSign t
  if sr.2 = inftyChars then (if sr.1 then .negInf else .posInf)
  else
    match parseUnsignedDecimal sr.2 with
    | some (q, []) => .val (if sr.1 then qNeg q else q)
    | _ => .nan

/-- ECMAScript `Number(string)` (ToNumber on strings): trim whitespace;
empty means `0`; `0x`/`0o`/`0b` radix literals; otherwise the whole string
must be a signed decimal literal or `Infinity`. -/
def jsNumber (s : String) : JsNum :=
  match jsTrim s.data with
  | [] => .val 0
  | '0' :: c :: rest =>
    if c = 'x' ∨ c = 'X' then radixNum 16 rest
    else if c = 'o' ∨ c = 'O' then radixNum 8 rest
    else if c = 'b' ∨ c = 'B' then radixNum 2 rest
    else jsNumberDec ('0' :: c :: rest)
  | t => jsNumberDec t

/-- The integer `n` minimising `|n / 10^6 - q|`, ties to the larger `n`:
the rounding ECMAScript `toFixed(6)` applies (here to nonnegative `q`). -/
def roundHalfUp6 (q : ℚ) : ℤ := Int.ediv (q.num * 2000000 + (q.den : ℤ)) (2 * (q.den : ℤ))

/-- Left-pad a string with zeros to the given width. -/
def padLeftZeros (s : String) (w : ℕ) : String :=
  String.mk (List.replicate (w - s.length) '0') ++ s

/-- Render `m / 10^6` with exactly six digits after the decimal point. -/
def fixed6OfNat (m : ℕ) : String :=
  Nat.repr (m / 1000000) ++ "." ++ padLeftZeros (Nat.repr (m % 1000000)) 6

/-- ECMAScript `x.toFixed(6)` for a finite exact value. -/
def toFixed6 (q : ℚ) : String :=
  if q.num < 0 then "-" ++ fixed6OfNat (roundHalfUp6 (qNeg q)).toNat
  else fixed6OfNat (roundHalfUp6 q).toNat

/-- ECMAScript `x.toFixed(6)` including the non-finite cases. -/
def jsToFixed6 : JsNum → String
  | .nan => "NaN"
  | .posInf => "Infinity"
  | .negInf => "-Infinity"
  | .val q => toFixed6 q

example : jsNumber "" = .val 0 := by decide
example : jsNumber " " = .val 0 := by decide
example : jsParseFloat " " = .nan := by decide
example : jsParseFloat "" = .nan := by decide
example : jsNumber "12.5" = .val (Rat.divInt 25 2) := by decide
example : jsParseFloat "12.5" = .val (Rat.divInt 25 2) := by decide
example : jsNumber "0x10" = .val 16 := by decide
example : jsParseFloat "0x10" = .val 0 := by decide
example : jsNumber "Infinity" = .posInf := by decide
example : jsNumber "-3" = .val (-3) := by decide
example : jsNumber "5a" = .nan := by decide
example : jsParseFloat "5a" = .val 5 := by decide
example : jsNumber "1e3" = .val 1000 := by decide
example : jsNumber "1e-2" = .val (Rat.divInt 1 100) := by decide
example : jsNumber "1e" = .nan := by decide
example : jsParseFloat "1e" = .val 1 := by decide
example : jsNumber "." = .nan := by decide
example : jsNumber ".5" = .val (Rat.divInt 1 2) := by decide
example : jsNumber "1 2" = .nan := by decide
example : toFixed6 2000 = "2000.000000" := by decide
example : toFixed6 (Rat.divInt 1 3) = "0.333333" := by decide
example : toFixed6 (Rat.divInt 1 2000000) = "0.000001" := by decide

/-- Lexicographic order on character lists by code point, the model of the
default-locale `localeCompare` comparator (which agrees with code-point
order on the uppercase ASCII tickers this catalog holds). -/
def strLeL : List Char → List Char → Bool
  | [], _ => true
  | _ :: _, [] => false
  | a :: as, b :: bs => if a = b then strLeL as bs else decide (a < b)

/-- String comparison used to model `localeCompare`-ascending sorting. -/
def strLe (a b : String) : Bool := strLeL a.data b.data

theorem strLeL_total (as : List Char) : ∀ bs, strLeL as bs = true ∨ strLeL bs as = true := by
  induction as with
  | nil => intro bs; left; rfl
  | cons a as ih =>
    intro bs
    cases bs with
    | nil => right; rfl
    | cons b bs =>
      by_cases hab : a = b
      · subst hab
        simpa [strLeL] using ih bs
      · rcases lt_or_gt_of_ne hab with h | h
        · left; simp [strLeL, hab, h]
        · right
          have hba : b ≠ a := fun e => hab e.symm
          simp [strLeL, hba, h]

theorem strLeL_trans (as : List Char) :
    ∀ bs cs, strLeL as bs = true → strLeL bs cs = true → strLeL as cs = true := by
  induction as with
  | nil => intro bs cs _ _; rfl
  | cons a as ih =>
    intro bs cs hab hbc
    cases bs with
    | nil => simp [strLeL] at hab
    | cons b bs =>
      cases cs with
      | nil => simp [strLeL] at hbc
      | cons c cs =>
        by_cases h1 : a = b
        · subst h1
          by_cases h2 : a = c
          · subst h2
            simp only [strLeL, if_pos rfl] at hab hbc ⊢
            exact ih bs cs hab hbc
          · simp only [strLeL, if_pos rfl] at hab
            simpa [strLeL, h2] using hbc
        · by_cases h2 : b = c
          · subst h2
            simpa [strLeL, h1] using hab
          · have hac : a < c := by
              have h3 : a < b := by simpa [strLeL, h1] using hab
              have h4 : b < c := by simpa [strLeL, h2] using hbc
              exact lt_trans h3 h4
            have : a ≠ c := ne_of_lt hac
            simp [strLeL, this, hac]

/-- Raw record shape of the price feed consumed by `processTokenData`. -/
structure RawTokenData where
  currency : String
  price : ℚ
deriving DecidableEq

/-- The processed token shape produced by `processTokenData`. -/
structure Token where
  currency : String
  price : ℚ
  icon : String
deriving DecidableEq

/-- Icon URL template applied to each currency. -/
def tokenIconUrl (c : String) : String :=
  "https://raw.githubusercontent.com/Switcheo/token-icons/main/tokens/" ++ c ++ ".svg"

/-- JavaScript `Map.set` on an insertion-ordered association list: an
existing key keeps its position and gets the new value; a new key is
appended. -/
def mapSet : List (String × Token) → String → Token → List (String × Token)
  | [], k, v => [(k, v)]
  | p :: m, k, v => if p.1 = k then (k, v) :: m else p :: mapSet m k v

/-- JavaScript `Map.get` on the association-list model. -/
def mapLookup (m : List (String × Token)) (k : String) : Option Token :=
  (m.find? (fun p => p.1 = k)).map Prod.snd

/-- One step of the `data.forEach` loop of `processTokenData`: records
with a truthy positive price are inserted, keyed by currency. -/
def tokenMapStep (m : List (String × Token)) (item : RawTokenData) : List (String × Token) :=
  if qBlt 0 item.price then
    mapSet m item.currency ⟨item.currency, item.price, tokenIconUrl item.currency⟩
  else m

/-- The `tokenMap` accumulated by `processTokenData`. -/
def tokenMapOf (data : List RawTokenData) : List (String × Token) :=
  data.foldl tokenMapStep []

/-- The comparator relation of the catalog sort: ascending by currency. -/
def tokenLe (a b : Token) : Prop := strLe a.currency b.currency = true

instance : DecidableRel tokenLe := fun _a _b => instDecidableEqBool _ _

/-- The catalog builder `processTokenData`: drop non-positive prices,
de-duplicate by currency with last-write-wins `Map` semantics, attach the
icon URL, and sort ascending by currency. -/
def processTokenData (data : List RawTokenData) : List Token :=
  List.insertionSort tokenLe ((tokenMapOf data).map Prod.snd)

/-- Wallet balance shape consumed by the `WalletPage` sorter. -/
structure WalletBalance where
  currency : String
  amount : ℚ
  blockchain : String
deriving DecidableEq

/-- The static blockchain priority table of `WalletPage`. -/
def getPriority (blockchain : String) : ℤ :=
  if blockchain = "Osmosis" then 100
  else if blockchain = "Ethereum" then 50
  else if blockchain = "Arbitrum" then 30
  else if blockchain = "Zilliqa" then 20
  else if blockchain = "Neo" then 20
  else -99

/-- The comparator relation of the balance sort: descending priority (the
JS comparator `rightPriority - leftPriority` sorts exactly this way). -/
def balanceGe (l r : WalletBalance) : Prop :=
  getPriority r.blockchain ≤ getPriority l.blockchain

instance : DecidableRel balanceGe := fun _l _r => Int.decLe _ _

/-- `sortedBalances` of `WalletPage`: keep balances on supported
blockchains (priority above the `-99` sentinel) with positive amounts,
sorted by priority descending. -/
def sortedBalances (balances : List WalletBalance) : List WalletBalance :=
  List.insertionSort balanceGe
    (balances.filter fun b => decide (-99 < getPriority b.blockchain) && qBlt 0 b.amount)

/-- `sum_to_n_a` of problem 1: iterative summation 1..n; 0 unless `n` is
an integer at least 1 (`Number.isInteger` is modelled as having
denominator 1). -/
def sum_to_n_a (n : ℚ) : ℚ :=
  if n < 1 ∨ n.den ≠ 1 then 0
  else (List.range' 1 n.num.toNat).foldl (fun (acc : ℚ) (i : ℕ) => acc + (i : ℚ)) 0

/-- `sum_to_n_b` of problem 1: closed formula `n * (n + 1) / 2` behind the
same guard. -/
def sum_to_n_b (n : ℚ) : ℚ :=
  if n < 1 ∨ n.den ≠ 1 then 0
  else n * (n + 1) / 2

/-- `sum_to_n_c` of problem 1: recursive summation behind the same guard,
recursing on `n - 1`. -/
def sum_to_n_c (n : ℚ) : ℚ :=
  if n < 1 ∨ n.den ≠ 1 then 0
  else if n = 1 then 1
  else n + sum_to_n_c (n - 1)
termination_by n.num.toNat
decreasing_by
  rename_i hguard hone
  push_neg at hguard
  obtain ⟨hge, hden⟩ := hguard
  have hn : ((n.num : ℚ)) = n := by
    conv_rhs => rw [← Rat.num_div_den n]
    rw [hden]
    simp
  have hsub : n - 1 = ((n.num - 1 : ℤ) : ℚ) := by
    push_cast
    rw [hn]
  rw [hsub]
  simp only [Rat.num_intCast]
  have h1 : (1 : ℚ) < n := lt_of_le_of_ne hge (fun e => hone e.symm)
  have h1' : (1 : ℤ) < n.num := by
    have := h1
    rw [← hn] at this
    exact_mod_cast this
  omega

theorem mapLookup_cons (p : String × Token) (m : List (String × Token)) (k : String) :
    mapLookup (p :: m) k = if p.1 = k then some p.2 else mapLookup m k := by
  by_cases h : p.1 = k <;> simp [mapLookup, List.find?_cons, h]

theorem mapLookup_mapSet (m : List (String × Token)) (k k' : String) (v : Token) :
    mapLookup (mapSet m k v) k' = if k = k' then some v else mapLookup m k' := by
  induction m with
  | nil => by_cases h : k = k' <;> simp [mapSet, mapLookup_cons, h]
  | cons p m ih =>
    rw [mapSet]
    by_cases hp : p.1 = k
    · rw [if_pos hp]
      by_cases h : k = k'
      · simp [mapLookup_cons, h]
      · have hp' : p.1 ≠ k' := by rw [hp]; exact h
        simp [mapLookup_cons, h, hp']
    · rw [if_neg hp, mapLookup_cons, ih, mapLookup_cons]
      by_cases hq : p.1 = k'
      · have hk : k ≠ k' := fun e => hp (by rw [e, hq])
        rw [if_pos hq, if_neg hk, if_pos hq]
      · by_cases h : k = k' <;> simp [h, hq]

theorem mem_keys_mapSet (m : List (String × Token)) (k : String) (v : Token) (a : String) :
    a ∈ (mapSet m k v).map Prod.fst → a ∈ m.map Prod.fst ∨ a = k := by
  induction m with
  | nil => intro h; simpa [mapSet] using h
  | cons p m ih =>
    intro h
    rw [mapSet] at h
    by_cases hp : p.1 = k
    · rw [if_pos hp] at h
      rcases List.mem_cons.mp h with h | h
      · right; exact h
      · left; exact List.mem_cons_of_mem _ h
    · rw [if_neg hp] at h
      rcases List.mem_cons.mp h with h | h
      · left; exact h ▸ List.mem_cons_self _ _
      · rcases ih h with h' | h'
        · left; exact List.mem_cons_of_mem _ h'
        · right; exact h'

theorem keys_nodup_mapSet (m : List (String × Token)) (k : String) (v : Token)
    (h : (m.map Prod.fst).Nodup) : ((mapSet m k v).map Prod.fst).Nodup := by
  induction m with
  | nil => simp [mapSet]
  | cons p m ih =>
    rw [List.map_cons, List.nodup_cons] at h
    rw [mapSet]
    by_cases hp : p.1 = k
    · rw [if_pos hp, List.map_cons, List.nodup_cons]
      exact ⟨hp ▸ h.1, h.2⟩
    · rw [if_neg hp, List.map_cons, List.nodup_cons]
      refine ⟨fun hmem => ?_, ih h.2⟩
      rcases mem_keys_mapSet m k v p.1 hmem with h' | h'
      · exact h.1 h'
      · exact hp h'

theorem mem_mapSet (m : List (String × Token)) (k : String) (v : Token) (p : String × Token) :
    p ∈ mapSet m k v → p ∈ m ∨ p = (k, v) := by
  induction m with
  | nil => intro h; right; simpa [mapSet] using h
  | cons q m ih =>
    intro h
    rw [mapSet] at h
    by_cases hq : q.1 = k
    · rw [if_pos hq] at h
      rcases List.mem_cons.mp h with h | h
      · right; exact h
      · left; exact List.mem_cons_of_mem _ h
    · rw [if_neg hq] at h
      rcases List.mem_cons.mp h with h | h
      · left; exact h ▸ List.mem_cons_self _ _
      · rcases ih h with h' | h'
        · left; exact List.mem_cons_of_mem _ h'
        · right; exact h'

/-- Well-formedness of the token map: keys are distinct, every value is
keyed by its own currency, and every stored price is positive. -/
def MapWF (m : List (String × Token)) : Prop :=
  (m.map Prod.fst).Nodup ∧ ∀ p ∈ m, p.2.currency = p.1 ∧ 0 < p.2.price

theorem mapSet_wf (m : List (String × Token)) (k : String) (v : Token)
    (hwf : MapWF m) (hc : v.currency = k) (hpr : 0 < v.price) : MapWF (mapSet m k v) := by
  refine ⟨keys_nodup_mapSet m k v hwf.1, fun p hp => ?_⟩
  rcases mem_mapSet m k v p hp with h | h
  · exact hwf.2 p h
  · subst h; exact ⟨hc, hpr⟩

theorem tokenMapStep_wf (m : List (String × Token)) (item : RawTokenData)
    (hwf : MapWF m) : MapWF (tokenMapStep m item) := by
  rw [tokenMapStep]
  by_cases hq : qBlt 0 item.price = true
  · rw [if_pos hq]
    exact mapSet_wf m item.currency _ hwf rfl ((qBlt_iff 0 item.price).mp hq)
  · rw [if_neg hq]
    exact hwf

theorem foldl_tokenMapStep_wf (data : List RawTokenData) :
    ∀ m, MapWF m → MapWF (data.foldl tokenMapStep m) := by
  induction data with
  | nil => intro m h; exact h
  | cons r rest ih =>
    intro m h
    rw [List.foldl_cons]
    exact ih _ (tokenMapStep_wf m r h)

theorem tokenMapOf_wf (data : List RawTokenData) : MapWF (tokenMapOf data) :=
  foldl_tokenMapStep_wf data [] ⟨List.nodup_nil, fun p hp => absurd hp (List.not_mem_nil p)⟩

theorem mapLookup_eq_none (m : List (String × Token)) (c : String)
    (h : c ∉ m.map Prod.fst) : mapLookup m c = none := by
  rw [mapLookup, List.find?_eq_none.mpr, Option.map_none']
  intro p hp hpc
  exact h (List.mem_map.mpr ⟨p, hp, by simpa using hpc⟩)

/-- Whether a record is retained for currency `c`: it names `c` and its
price passes the truthy-positive guard. -/
def validFor (c : String) (r : RawTokenData) : Bool :=
  decide (r.currency = c) && qBlt 0 r.price

/-- The last record of the list that `validFor c` accepts. -/
def lastValid (c : String) : List RawTokenData → Option RawTokenData
  | [] => none
  | r :: rest =>
    match lastValid c rest with
    | some r' => some r'
    | none => if validFor c r then some r else none

theorem lastValid_eq_getLast (c : String) (data : List RawTokenData) :
    lastValid c data = (data.filter (validFor c)).getLast? := by
  induction data with
  | nil => rfl
  | cons r rest ih =>
    rw [lastValid]
    by_cases hv : validFor c r = true
    · rw [List.filter_cons_of_pos hv]
      cases hlv : lastValid c rest with
      | some r' =>
        rw [ih] at hlv
        rw [List.getLast?_cons, hlv]
        rfl
      | none =>
        rw [ih] at hlv
        rw [List.getLast?_cons, hlv, if_pos hv]
        rfl
    · rw [List.filter_cons_of_neg (by simpa using hv)]
      cases hlv : lastValid c rest with
      | some r' => rw [← ih, hlv]
      | none => rw [← ih, hlv, if_neg hv]

theorem foldl_tokenMapStep_lookup (c : String) (data : List RawTokenData) :
    ∀ m, mapLookup (data.foldl tokenMapStep m) c =
      match lastValid c data with
      | some r => some ⟨c, r.price, tokenIconUrl c⟩
      | none => mapLookup m c := by
  induction data with
  | nil => intro m; rfl
  | cons r rest ih =>
    intro m
    rw [List.foldl_cons, ih, lastValid]
    cases hlv : lastValid c rest with
    | some r' => rfl
    | none =>
      by_cases hv : validFor c r = true
      · rw [if_pos hv]
        have hcur : r.currency = c := of_decide_eq_true (Bool.and_elim_left hv)
        have hq : qBlt 0 r.price = true := Bool.and_elim_right hv
        rw [tokenMapStep, if_pos hq, mapLookup_mapSet, if_pos hcur]
        subst hcur
        rfl
      · rw [if_neg hv, tokenMapStep]
        by_cases hq : qBlt 0 r.price = true
        · have hcur : r.currency ≠ c := by
            intro e
            exact hv (by rw [validFor, e]; simpa using hq)
          rw [if_pos hq, mapLookup_mapSet, if_neg hcur]
        · rw [if_neg hq]

theorem values_filter_eq (c : String) (m : List (String × Token)) (hwf : MapWF m) :
    (m.map Prod.snd).filter (fun t => decide (t.currency = c)) =
      match mapLookup m c with
      | some v => [v]
      | none => [] := by
  induction m with
  | nil => rfl
  | cons p m ih =>
    obtain ⟨hnd, hkv⟩ := hwf
    rw [List.map_cons, List.nodup_cons] at hnd
    have hp := hkv p (List.mem_cons_self _ _)
    have htail : MapWF m := ⟨hnd.2, fun q hq => hkv q (List.mem_cons_of_mem _ hq)⟩
    rw [List.map_cons, mapLookup_cons]
    by_cases hc : p.2.currency = c
    · rw [List.filter_cons_of_pos (by simpa using hc)]
      have hk : p.1 = c := by rw [← hp.1, hc]
      rw [if_pos hk]
      have hnone : mapLookup m c = none := mapLookup_eq_none m c (hk ▸ hnd.1)
      rw [ih htail, hnone]
    · have hk : p.1 ≠ c := fun e => hc (hp.1.trans e)
      rw [List.filter_cons_of_neg (by simpa using hc), if_neg hk]
      exact ih htail

/-- C4: for every input record list containing two or more records with
the same currency `c` and valid (truthy positive) prices, `processTokenData`
returns exactly one token for `c`, and its price is the price of the last
such record in input order (last-write-wins). -/
theorem claim_C4_lastWriteWins (data : List RawTokenData) (c : String) (r : RawTokenData)
    (_h2 : 2 ≤ (data.filter (validFor c)).length)
    (hl : (data.filter (validFor c)).getLast? = some r) :
    (processTokenData data).filter (fun t => decide (t.currency = c)) =
      [⟨c, r.price, tokenIconUrl c⟩] := by
  have hlookup : mapLookup (tokenMapOf data) c = some ⟨c, r.price, tokenIconUrl c⟩ := by
    have h1 := foldl_tokenMapStep_lookup c data []
    rw [lastValid_eq_getLast, hl] at h1
    exact h1
  have hvals := values_filter_eq c (tokenMapOf data) (tokenMapOf_wf data)
  rw [hlookup] at hvals
  have hperm : ((processTokenData data).filter (fun t => decide (t.currency = c))).Perm
      (((tokenMapOf data).map Prod.snd).filter (fun t => decide (t.currency = c))) :=
    (List.perm_insertionSort tokenLe _).filter _
  rw [hvals] at hperm
  exact List.perm_singleton.mp hperm

/-- Witness for C4 at the spec's example: records ETH@50 then ETH@60
collapse to a single ETH token priced 60. -/
theorem claim_C4_lastWriteWins_witness :
    2 ≤ (([⟨"ETH", 50⟩, ⟨"ETH", 60⟩] : List RawTokenData).filter (validFor "ETH")).length ∧
    (processTokenData [⟨"ETH", 50⟩, ⟨"ETH", 60⟩]).filter (fun t => decide (t.currency = "ETH")) =
      [⟨"ETH", (60 : ℚ), tokenIconUrl "ETH"⟩] :=
  ⟨by decide, claim_C4_lastWriteWins [⟨"ETH", 50⟩, ⟨"ETH", 60⟩] "ETH" ⟨"ETH", 60⟩
    (by decide) (by decide)⟩

/-- C8: the output of `processTokenData` is strictly ascending by currency
under the modelled `localeCompare` order; in particular no two output
tokens share a currency. -/
theorem claim_C8_strictAscending (data : List RawTokenData) :
    (processTokenData data).Pairwise
      (fun a b => strLe a.currency b.currency = true ∧ a.currency ≠ b.currency) := by
  haveI : IsTotal Token tokenLe := ⟨fun a b => strLeL_total a.currency.data b.currency.data⟩
  haveI : IsTrans Token tokenLe := ⟨fun a b c hab hbc => strLeL_trans _ _ _ hab hbc⟩
  have hsorted : (processTokenData data).Pairwise tokenLe :=
    List.sorted_insertionSort tokenLe _
  have hmapeq : ((tokenMapOf data).map Prod.snd).map (fun t => t.currency) =
      (tokenMapOf data).map Prod.fst := by
    rw [List.map_map]
    exact List.map_congr_left (fun p hp => ((tokenMapOf_wf data).2 p hp).1)
  have hperm : (((processTokenData data).map (fun t => t.currency))).Perm
      ((tokenMapOf data).map Prod.fst) := by
    rw [← hmapeq]
    exact (List.perm_insertionSort tokenLe _).map _
  have hnodup : ((processTokenData data).map (fun t => t.currency)).Nodup :=
    hperm.nodup_iff.mpr (tokenMapOf_wf data).1
  have hne : (processTokenData data).Pairwise (fun a b => a.currency ≠ b.currency) :=
    List.pairwise_map.mp hnodup
  exact hsorted.and hne

theorem getPriority_cases (s : String) :
    getPriority s = 100 ∨ getPriority s = 50 ∨ getPriority s = 30 ∨
      getPriority s = 20 ∨ getPriority s = -99 := by
  rw [getPriority]
  split_ifs <;> simp

theorem getPriority_neg99_iff (s : String) :
    (-99 < getPriority s) ↔ getPriority s ≠ -99 := by
  rcases getPriority_cases s with h | h | h | h | h <;> rw [h] <;> omega

/-- C7: `sortedBalances` keeps exactly the input balances whose blockchain
priority is not the `-99` sentinel and whose amount is positive, in
descending priority order (ties in either direction of the comparator). -/
theorem claim_C7_balanceSelection (balances : List WalletBalance) :
    ((sortedBalances balances).Perm
      (balances.filter fun b => decide (getPriority b.blockchain ≠ -99) && qBlt 0 b.amount)) ∧
    (sortedBalances balances).Pairwise
      (fun l r => getPriority r.blockchain ≤ getPriority l.blockchain) := by
  haveI : IsTotal WalletBalance balanceGe := ⟨fun a b => le_total _ _⟩
  haveI : IsTrans WalletBalance balanceGe := ⟨fun _a _b _c hab hbc => le_trans hbc hab⟩
  constructor
  · have hfil : (balances.filter fun b => decide (-99 < getPriority b.blockchain) && qBlt 0 b.amount)
        = balances.filter fun b => decide (getPriority b.blockchain ≠ -99) && qBlt 0 b.amount := by
      apply List.filter_congr
      intro b _
      have hd : decide (-99 < getPriority b.blockchain) = decide (getPriority b.blockchain ≠ -99) :=
        decide_eq_decide.mpr (getPriority_neg99_iff b.blockchain)
      rw [hd]
    have hperm := List.perm_insertionSort balanceGe
      (balances.filter fun b => decide (-99 < getPriority b.blockchain) && qBlt 0 b.amount)
    rw [sortedBalances]
    rw [← hfil]
    exact hperm
  · exact List.sorted_insertionSort balanceGe _

theorem range'_foldl_sum (k : ℕ) :
    ((List.range' 1 k).foldl (fun (acc : ℚ) (i : ℕ) => acc + (i : ℚ)) 0) =
      (k : ℚ) * ((k : ℚ) + 1) / 2 := by
  induction k with
  | zero => simp
  | succ n ih =>
    rw [List.range'_concat, List.foldl_append, ih]
    simp only [List.foldl_cons, List.foldl_nil]
    push_cast
    ring

theorem rat_num_cast_of_den_one (n : ℚ) (hden : n.den = 1) : ((n.num : ℚ)) = n := by
  conv_rhs => rw [← Rat.num_div_den n]
  rw [hden]
  simp

theorem sum_to_n_c_natCast (k : ℕ) :
    sum_to_n_c ((k + 1 : ℕ) : ℚ) = ((k + 1 : ℕ) : ℚ) * (((k + 1 : ℕ) : ℚ) + 1) / 2 := by
  induction k with
  | zero =>
    rw [sum_to_n_c]
    norm_num
  | succ n ih =>
    rw [sum_to_n_c]
    have hguard : ¬(((n + 1 + 1 : ℕ) : ℚ) < 1 ∨ (((n + 1 + 1 : ℕ) : ℚ)).den ≠ 1) := by
      push_neg
      constructor
      · exact_mod_cast Nat.one_le_iff_ne_zero.mpr (by omega)
      · exact Rat.den_natCast _
    have hne : ((n + 1 + 1 : ℕ) : ℚ) ≠ 1 := by
      intro h
      have : (n + 1 + 1 : ℕ) = 1 := by exact_mod_cast h
      omega
    rw [if_neg hguard, if_neg hne]
    have harg : ((n + 1 + 1 : ℕ) : ℚ) - 1 = ((n + 1 : ℕ) : ℚ) := by
      push_cast
      ring
    rw [harg, ih]
    push_cast
    ring

/-- C10: the three `sum_to_n` implementations agree everywhere, and their
common value is `n * (n + 1) / 2` for integers `n ≥ 1` and `0` for every
other number. -/
theorem claim_C10_sum_to_n_equiv (n : ℚ) :
    sum_to_n_a n = sum_to_n_b n ∧ sum_to_n_c n = sum_to_n_b n ∧
      sum_to_n_b n = (if 1 ≤ n ∧ n.den = 1 then n * (n + 1) / 2 else 0) := by
  by_cases hg : n < 1 ∨ n.den ≠ 1
  · have h3 : ¬(1 ≤ n ∧ n.den = 1) := by
      rcases hg with h | h
      · exact fun hc => absurd hc.1 (not_le.mpr h)
      · exact fun hc => h hc.2
    refine ⟨?_, ?_, ?_⟩
    · rw [sum_to_n_a, sum_to_n_b, if_pos hg, if_pos hg]
    · rw [sum_to_n_c, sum_to_n_b, if_pos hg, if_pos hg]
    · rw [sum_to_n_b, if_pos hg, if_neg h3]
  · have hg' := hg
    push_neg at hg'
    obtain ⟨hge, hden⟩ := hg'
    have hn : ((n.num : ℚ)) = n := rat_num_cast_of_den_one n hden
    have hnum1 : 1 ≤ n.num := by
      rw [← hn] at hge
      exact_mod_cast hge
    obtain ⟨k, hk⟩ : ∃ k : ℕ, n.num = (k : ℤ) + 1 := ⟨(n.num - 1).toNat, by omega⟩
    have hncast : n = ((k + 1 : ℕ) : ℚ) := by
      rw [← hn, hk]
      push_cast
      ring
    refine ⟨?_, ?_, ?_⟩
    · rw [sum_to_n_a, sum_to_n_b, if_neg hg, if_neg hg]
      have htoNat : n.num.toNat = k + 1 := by omega
      rw [htoNat, range'_foldl_sum, hncast]
    · rw [sum_to_n_b, if_neg hg, hncast, sum_to_n_c_natCast]
    · rw [sum_to_n_b, if_neg hg, if_pos ⟨hge, hden⟩]

/-- The state of the `App` component once the initial fetch resolved:
tokens catalog, selected pair, raw amount strings, modal/search UI state,
error banner text and the swapping flag. -/
structure AppState where
  tokens : List Token
  fromToken : Option Token
  toToken : Option Token
  fromAmount : String
  toAmount : String
  isFromModalOpen : Bool
  isToModalOpen : Bool
  searchTerm : String
  error : String
  isSwapping : Bool
deriving DecidableEq

/-- The mock balance collaborator (`MOCK_BALANCE = 10`). -/
def MOCK_BALANCE : ℚ := 10

/-- The error message written on insufficient balance. -/
def insufficientMsg (c : String) : String := "Insufficient " ++ c ++ " balance"

/-- The recompute `useEffect` of `App`, which runs after `fromAmount`,
`fromToken` or `toToken` change: reset the error, flag an insufficient
balance while a from-token is selected, and derive `toAmount` from the
spot-price ratio when the parsed amount is positive, both tokens are
selected and both prices are truthy. -/
def recompute (balance : ℚ) (s : AppState) : AppState :=
  let n := jsParseFloat s.fromAmount
  let err :=
    match s.fromToken with
    | some ft => if n.gtQ balance then insufficientMsg ft.currency else ""
    | none => ""
  let ta :=
    match s.fromToken, s.toToken with
    | some ft, some tt =>
      if n.gtQ 0 && !decide (ft.price = 0) && !decide (tt.price = 0) then
        jsToFixed6 (n.mulQ (qDiv ft.price tt.price))
      else ""
    | _, _ => ""
  { s with error := err, toAmount := ta }

/-- `handleFromAmountChange`: accept the raw text only when it is empty or
`Number(text)` is non-NaN and nonnegative; store it verbatim. -/
def handleFromAmountChange (s : AppState) (v : String) : AppState :=
  if decide (v = "") || ((jsNumber v).geQ 0 && !(jsNumber v).isNaN) then
    { s with fromAmount := v }
  else s

/-- The JS guard `opt && opt.currency === t.currency`. -/
def sameCurrency (o : Option Token) (t : Token) : Bool :=
  match o with
  | some x => decide (x.currency = t.currency)
  | none => false

/-- `handleSelectFromToken`: selecting the currency currently held by the
to-token moves the previous from-token into the to slot first. -/
def handleSelectFromToken (s : AppState) (t : Token) : AppState :=
  let s1 := if sameCurrency s.toToken t then { s with toToken := s.fromToken } else s
  { s1 with fromToken := some t, isFromModalOpen := false, searchTerm := "" }

/-- `handleSelectToToken`: symmetric to `handleSelectFromToken`. -/
def handleSelectToToken (s : AppState) (t : Token) : AppState :=
  let s1 := if sameCurrency s.fromToken t then { s with fromToken := s.toToken } else s
  { s1 with toToken := some t, isToModalOpen := false, searchTerm := "" }

/-- `handleSwapTokens` (flip sides): ignored while swapping; otherwise
exchange the tokens and copy the displayed output into the input. -/
def handleSwapTokens (s : AppState) : AppState :=
  if s.isSwapping then s
  else { s with fromToken := s.toToken, toToken := s.fromToken, fromAmount := s.toAmount }

/-- `isButtonDisabled`: the swap button is disabled iff the amount is
empty, parses to a number at most zero, an error is displayed, or a swap
is in flight. -/
def isButtonDisabled (s : AppState) : Bool :=
  decide (s.fromAmount = "") || (jsParseFloat s.fromAmount).leQ 0 ||
    !decide (s.error = "") || s.isSwapping

/-- `handleSwapClick`: start the simulated swap (the settle timer is the
separate `settleTimer` event). -/
def handleSwapClick (s : AppState) : AppState := { s with isSwapping := true }

/-- The body of the two-second timer scheduled by `handleSwapClick`:
clear both amounts and leave the swapping state. -/
def settleTimer (s : AppState) : AppState :=
  { s with fromAmount := "", toAmount := "", isSwapping := false }

/-- The user-interface events the component reacts to. -/
inductive Event where
  | selectFromToken (t : Token) : Event
  | selectToToken (t : Token) : Event
  | changeFromAmount (v : String) : Event
  | flipSides : Event
  | triggerSwap : Event
  | settle : Event
  | openFromModal : Event
  | openToModal : Event
  | closeFromModal : Event
  | closeToModal : Event
  | setSearch (v : String) : Event
deriving DecidableEq

/-- One step of the event loop.  Handlers run first; the recompute effect
re-runs exactly when one of its dependencies (`fromAmount`, `fromToken`,
`toToken`) may have changed, mirroring React's dependency tracking (a
rejected amount edit changes nothing and triggers no recompute).
`triggerSwap` reaches `handleSwapClick` only through the swap button,
which is disabled per `isButtonDisabled`; the settle event fires only
while a swap is in flight. -/
def step (s : AppState) (e : Event) : AppState :=
  match e with
  | .selectFromToken t => recompute MOCK_BALANCE (handleSelectFromToken s t)
  | .selectToToken t => recompute MOCK_BALANCE (handleSelectToToken s t)
  | .changeFromAmount v =>
    let s1 := handleFromAmountChange s v
    if s1 = s then s else recompute MOCK_BALANCE s1
  | .flipSides => if s.isSwapping then s else recompute MOCK_BALANCE (handleSwapTokens s)
  | .triggerSwap => if isButtonDisabled s then s else handleSwapClick s
  | .settle => if s.isSwapping then recompute MOCK_BALANCE (settleTimer s) else s
  | .openFromModal => if s.isSwapping then s else { s with isFromModalOpen := true }
  | .openToModal => if s.isSwapping then s else { s with isToModalOpen := true }
  | .closeFromModal => { s with isFromModalOpen := false }
  | .closeToModal => { s with isToModalOpen := false }
  | .setSearch v => { s with searchTerm := v }

/-- The state right after the initial fetch resolves: the catalog is
built, ETH and USDC are preselected when present, and the recompute
effect has run once. -/
def initState (data : List RawTokenData) : AppState :=
  let tokens := processTokenData data
  recompute MOCK_BALANCE
    { tokens := tokens
      fromToken := tokens.find? (fun t => decide (t.currency = "ETH"))
      toToken := tokens.find? (fun t => decide (t.currency = "USDC"))
      fromAmount := ""
      toAmount := ""
      isFromModalOpen := false
      isToModalOpen := false
      searchTerm := ""
      error := ""
      isSwapping := false }

/-- Guard on event payloads: tokens can only be selected out of the
catalog held in the state (the selector modals list exactly those). -/
def validEvent (s : AppState) : Event → Prop
  | .selectFromToken t => t ∈ s.tokens
  | .selectToToken t => t ∈ s.tokens
  | _ => True

/-- States reachable from the post-load initial state through valid
events. -/
inductive Reachable (data : List RawTokenData) : AppState → Prop
  | init : Reachable data (initState data)
  | next {s : AppState} {e : Event} : Reachable data s → validEvent s e →
      Reachable data (step s e)

theorem recompute_tokens (b : ℚ) (s : AppState) : (recompute b s).tokens = s.tokens := rfl

theorem recompute_fromToken (b : ℚ) (s : AppState) :
    (recompute b s).fromToken = s.fromToken := rfl

theorem recompute_toToken (b : ℚ) (s : AppState) : (recompute b s).toToken = s.toToken := rfl

theorem recompute_fromAmount (b : ℚ) (s : AppState) :
    (recompute b s).fromAmount = s.fromAmount := rfl

theorem recompute_isSwapping (b : ℚ) (s : AppState) :
    (recompute b s).isSwapping = s.isSwapping := rfl

theorem processTokenData_price_pos (data : List RawTokenData) (t : Token)
    (ht : t ∈ processTokenData data) : 0 < t.price := by
  have hmem : t ∈ (tokenMapOf data).map Prod.snd :=
    (List.perm_insertionSort tokenLe _).mem_iff.mp ht
  obtain ⟨p, hp, hpe⟩ := List.mem_map.mp hmem
  exact hpe ▸ ((tokenMapOf_wf data).2 p hp).2

/-- Invariant of reachable states: the catalog is the processed feed,
selected tokens carry positive prices, and the two selected currencies
differ. -/
def StateInv (data : List RawTokenData) (s : AppState) : Prop :=
  s.tokens = processTokenData data ∧
  (∀ t, s.fromToken = some t → 0 < t.price) ∧
  (∀ t, s.toToken = some t → 0 < t.price) ∧
  ∀ ft tt, s.fromToken = some ft → s.toToken = some tt → ft.currency ≠ tt.currency

theorem stateInv_of_same (data : List RawTokenData) {s s' : AppState} (h : StateInv data s)
    (ht : s'.tokens = s.tokens) (hf : s'.fromToken = s.fromToken)
    (hto : s'.toToken = s.toToken) : StateInv data s' := by
  obtain ⟨h1, h2, h3, h4⟩ := h
  refine ⟨by rw [ht, h1], fun t e => h2 t (by rw [← hf]; exact e),
    fun t e => h3 t (by rw [← hto]; exact e),
    fun ft tt ef et => h4 ft tt (by rw [← hf]; exact ef) (by rw [← hto]; exact et)⟩

theorem sameCurrency_eq_true {o : Option Token} {t : Token} (h : sameCurrency o t = true) :
    ∃ x, o = some x ∧ x.currency = t.currency := by
  cases o with
  | none => simp [sameCurrency] at h
  | some x => exact ⟨x, rfl, by simpa [sameCurrency] using h⟩

theorem sameCurrency_eq_false {o : Option Token} {t : Token} (h : sameCurrency o t = false)
    {x : Token} (hx : o = some x) : x.currency ≠ t.currency := by
  subst hx
  simpa [sameCurrency] using h

theorem stateInv_init (data : List RawTokenData) : StateInv data (initState data) := by
  refine ⟨rfl, ?_, ?_, ?_⟩
  · intro t e
    have e' : (processTokenData data).find? (fun t => decide (t.currency = "ETH")) = some t := e
    exact processTokenData_price_pos data t (List.mem_of_find?_eq_some e')
  · intro t e
    have e' : (processTokenData data).find? (fun t => decide (t.currency = "USDC")) = some t := e
    exact processTokenData_price_pos data t (List.mem_of_find?_eq_some e')
  · intro ft tt ef et
    have ef' : (processTokenData data).find? (fun t => decide (t.currency = "ETH")) = some ft := ef
    have et' : (processTokenData data).find? (fun t => decide (t.currency = "USDC")) = some tt := et
    have hf0 := List.find?_some ef'
    have ht0 := List.find?_some et'
    have hf : ft.currency = "ETH" := of_decide_eq_true hf0
    have ht : tt.currency = "USDC" := of_decide_eq_true ht0
    rw [hf, ht]
    decide

theorem stateInv_step (data : List RawTokenData) {s : AppState} (h : StateInv data s)
    (e : Event) (hv : validEvent s e) : StateInv data (step s e) := by
  obtain ⟨h1, h2, h3, h4⟩ := h
  cases e with
  | selectFromToken t =>
    have htp : 0 < t.price := processTokenData_price_pos data t (h1 ▸ hv)
    by_cases hg : sameCurrency s.toToken t = true
    · have hstate : step s (.selectFromToken t) = recompute MOCK_BALANCE
          { s with toToken := s.fromToken, fromToken := some t,
                   isFromModalOpen := false, searchTerm := "" } := by
        show recompute MOCK_BALANCE (handleSelectFromToken s t) = _
        rw [handleSelectFromToken, if_pos hg]
      rw [hstate]
      obtain ⟨tt, htt, htc⟩ := sameCurrency_eq_true hg
      refine ⟨h1, ?_, ?_, ?_⟩
      · intro x e
        rw [recompute_fromToken] at e
        cases e
        exact htp
      · intro x e
        rw [recompute_toToken] at e
        exact h2 x e
      · intro ft' tt' ef et
        rw [recompute_fromToken] at ef
        rw [recompute_toToken] at et
        cases ef
        have hne := h4 tt' tt et htt
        rw [← htc]
        exact fun e => hne e.symm
    · have hg' : sameCurrency s.toToken t = false := by
        rcases Bool.eq_false_or_eq_true (sameCurrency s.toToken t) with h' | h'
        · exact absurd h' hg
        · exact h'
      have hstate : step s (.selectFromToken t) = recompute MOCK_BALANCE
          { s with fromToken := some t, isFromModalOpen := false, searchTerm := "" } := by
        show recompute MOCK_BALANCE (handleSelectFromToken s t) = _
        rw [handleSelectFromToken, if_neg (by rw [hg']; exact Bool.false_ne_true)]
      rw [hstate]
      refine ⟨h1, ?_, ?_, ?_⟩
      · intro x e
        rw [recompute_fromToken] at e
        cases e
        exact htp
      · intro x e
        rw [recompute_toToken] at e
        exact h3 x e
      · intro ft' tt' ef et
        rw [recompute_fromToken] at ef
        rw [recompute_toToken] at et
        cases ef
        exact fun e => sameCurrency_eq_false hg' et e.symm
  | selectToToken t =>
    have htp : 0 < t.price := processTokenData_price_pos data t (h1 ▸ hv)
    by_cases hg : sameCurrency s.fromToken t = true
    · have hstate : step s (.selectToToken t) = recompute MOCK_BALANCE
          { s with fromToken := s.toToken, toToken := some t,
                   isToModalOpen := false, searchTerm := "" } := by
        show recompute MOCK_BALANCE (handleSelectToToken s t) = _
        rw [handleSelectToToken, if_pos hg]
      rw [hstate]
      obtain ⟨ft, hft, hfc⟩ := sameCurrency_eq_true hg
      refine ⟨h1, ?_, ?_, ?_⟩
      · intro x e
        rw [recompute_fromToken] at e
        exact h3 x e
      · intro x e
        rw [recompute_toToken] at e
        cases e
        exact htp
      · intro ft' tt' ef et
        rw [recompute_fromToken] at ef
        rw [recompute_toToken] at et
        cases et
        have hne := h4 ft ft' hft ef
        rw [← hfc]
        exact fun e => hne e.symm
    · have hg' : sameCurrency s.fromToken t = false := by
        rcases Bool.eq_false_or_eq_true (sameCurrency s.fromToken t) with h' | h'
        · exact absurd h' hg
        · exact h'
      have hstate : step s (.selectToToken t) = recompute MOCK_BALANCE
          { s with toToken := some t, isToModalOpen := false, searchTerm := "" } := by
        show recompute MOCK_BALANCE (handleSelectToToken s t) = _
        rw [handleSelectToToken, if_neg (by rw [hg']; exact Bool.false_ne_true)]
      rw [hstate]
      refine ⟨h1, ?_, ?_, ?_⟩
      · intro x e
        rw [recompute_fromToken] at e
        exact h2 x e
      · intro x e
        rw [recompute_toToken] at e
        cases e
        exact htp
      · intro ft' tt' ef et
        rw [recompute_fromToken] at ef
        rw [recompute_toToken] at et
        cases et
        exact sameCurrency_eq_false hg' ef
  | changeFromAmount v =>
    show StateInv data (let s1 := handleFromAmountChange s v;
      if s1 = s then s else recompute MOCK_BALANCE s1)
    by_cases hacc : (decide (v = "") || ((jsNumber v).geQ 0 && !(jsNumber v).isNaN)) = true
    · rw [handleFromAmountChange, if_pos hacc]
      by_cases heq : ({ s with fromAmount := v } : AppState) = s
      · rw [if_pos heq]
        exact ⟨h1, h2, h3, h4⟩
      · rw [if_neg heq]
        exact stateInv_of_same data ⟨h1, h2, h3, h4⟩ rfl rfl rfl
    · rw [handleFromAmountChange, if_neg hacc, if_pos rfl]
      exact ⟨h1, h2, h3, h4⟩
  | flipSides =>
    show StateInv data (if s.isSwapping then s else recompute MOCK_BALANCE (handleSwapTokens s))
    by_cases hsw : s.isSwapping = true
    · rw [if_pos hsw]
      exact ⟨h1, h2, h3, h4⟩
    · rw [if_neg hsw, handleSwapTokens, if_neg hsw]
      refine ⟨h1, ?_, ?_, ?_⟩
      · intro x e
        rw [recompute_fromToken] at e
        exact h3 x e
      · intro x e
        rw [recompute_toToken] at e
        exact h2 x e
      · intro ft' tt' ef et
        rw [recompute_fromToken] at ef
        rw [recompute_toToken] at et
        exact fun e => h4 tt' ft' et ef e.symm
  | triggerSwap =>
    show StateInv data (if isButtonDisabled s then s else handleSwapClick s)
    by_cases hd : isButtonDisabled s = true
    · rw [if_pos hd]; exact ⟨h1, h2, h3, h4⟩
    · rw [if_neg hd]
      exact stateInv_of_same data ⟨h1, h2, h3, h4⟩ rfl rfl rfl
  | settle =>
    show StateInv data (if s.isSwapping then recompute MOCK_BALANCE (settleTimer s) else s)
    by_cases hsw : s.isSwapping = true
    · rw [if_pos hsw]
      exact stateInv_of_same data ⟨h1, h2, h3, h4⟩ rfl rfl rfl
    · rw [if_neg hsw]; exact ⟨h1, h2, h3, h4⟩
  | openFromModal =>
    show StateInv data (if s.isSwapping then s else { s with isFromModalOpen := true })
    by_cases hsw : s.isSwapping = true
    · rw [if_pos hsw]; exact ⟨h1, h2, h3, h4⟩
    · rw [if_neg hsw]
      exact stateInv_of_same data ⟨h1, h2, h3, h4⟩ rfl rfl rfl
  | openToModal =>
    show StateInv data (if s.isSwapping then s else { s with isToModalOpen := true })
    by_cases hsw : s.isSwapping = true
    · rw [if_pos hsw]; exact ⟨h1, h2, h3, h4⟩
    · rw [if_neg hsw]
      exact stateInv_of_same data ⟨h1, h2, h3, h4⟩ rfl rfl rfl
  | closeFromModal =>
    exact stateInv_of_same data ⟨h1, h2, h3, h4⟩ rfl rfl rfl
  | closeToModal =>
    exact stateInv_of_same data ⟨h1, h2, h3, h4⟩ rfl rfl rfl
  | setSearch v =>
    exact stateInv_of_same data ⟨h1, h2, h3, h4⟩ rfl rfl rfl

theorem reachable_inv (data : List RawTokenData) (s : AppState) (h : Reachable data s) :
    StateInv data s := by
  induction h with
  | init => exact stateInv_init data
  | next hr hv ih => exact stateInv_step data ih _ hv

theorem recompute_toAmount_some (b : ℚ) (s : AppState) (ft tt : Token)
    (hft : s.fromToken = some ft) (htt : s.toToken = some tt) :
    (recompute b s).toAmount =
      if (jsParseFloat s.fromAmount).gtQ 0 && !decide (ft.price = 0) && !decide (tt.price = 0)
      then jsToFixed6 ((jsParseFloat s.fromAmount).mulQ (qDiv ft.price tt.price))
      else "" := by
  simp only [recompute]
  rw [hft, htt]

theorem recompute_toAmount_none (b : ℚ) (s : AppState)
    (h : s.fromToken = none ∨ s.toToken = none) : (recompute b s).toAmount = "" := by
  simp only [recompute]
  rcases h with h | h
  · rw [h]
  · rw [h]
    cases s.fromToken <;> rfl

theorem recompute_error_some (b : ℚ) (s : AppState) (ft : Token)
    (hft : s.fromToken = some ft) :
    (recompute b s).error =
      if (jsParseFloat s.fromAmount).gtQ b then insufficientMsg ft.currency else "" := by
  simp only [recompute]
  rw [hft]

theorem recompute_error_none (b : ℚ) (s : AppState) (h : s.fromToken = none) :
    (recompute b s).error = "" := by
  simp only [recompute]
  rw [h]

theorem recompute_empty_amount (b : ℚ) (s : AppState) (h : s.fromAmount = "") :
    (recompute b s).toAmount = "" ∧ (recompute b s).error = "" := by
  constructor
  · cases hf : s.fromToken with
    | none => exact recompute_toAmount_none b s (Or.inl hf)
    | some ft =>
      cases ht : s.toToken with
      | none => exact recompute_toAmount_none b s (Or.inr ht)
      | some tt =>
        rw [recompute_toAmount_some b s ft tt hf ht, h]
        rfl
  · cases hf : s.fromToken with
    | none => exact recompute_error_none b s hf
    | some ft =>
      rw [recompute_error_some b s ft hf, h]
      rfl

/-- C2: in every reachable state the two selected tokens never share a
currency; moreover selecting as to-token a token with the currency the
from-token currently holds swaps the pair (the from slot takes the
previous to-token, the to slot takes the selected token), and
symmetrically for the from side. -/
theorem claim_C2_noDuplicatePair (data : List RawTokenData) (s : AppState)
    (h : Reachable data s) :
    (∀ ft tt, s.fromToken = some ft → s.toToken = some tt → ft.currency ≠ tt.currency) ∧
    (∀ t ft, s.fromToken = some ft → t.currency = ft.currency →
      (step s (.selectToToken t)).toToken = some t ∧
      (step s (.selectToToken t)).fromToken = s.toToken) ∧
    (∀ t tt, s.toToken = some tt → t.currency = tt.currency →
      (step s (.selectFromToken t)).fromToken = some t ∧
      (step s (.selectFromToken t)).toToken = s.fromToken) := by
  refine ⟨(reachable_inv data s h).2.2.2, ?_, ?_⟩
  · intro t ft hft hc
    have hg : sameCurrency s.fromToken t = true := by
      rw [hft]
      show decide (ft.currency = t.currency) = true
      exact decide_eq_true hc.symm
    constructor
    · show (recompute MOCK_BALANCE (handleSelectToToken s t)).toToken = some t
      rw [recompute_toToken, handleSelectToToken, if_pos hg]
    · show (recompute MOCK_BALANCE (handleSelectToToken s t)).fromToken = s.toToken
      rw [recompute_fromToken, handleSelectToToken, if_pos hg]
  · intro t tt htt hc
    have hg : sameCurrency s.toToken t = true := by
      rw [htt]
      show decide (tt.currency = t.currency) = true
      exact decide_eq_true hc.symm
    constructor
    · show (recompute MOCK_BALANCE (handleSelectFromToken s t)).fromToken = some t
      rw [recompute_fromToken, handleSelectFromToken, if_pos hg]
    · show (recompute MOCK_BALANCE (handleSelectFromToken s t)).toToken = s.fromToken
      rw [recompute_toToken, handleSelectFromToken, if_pos hg]

/-- Witness for C2: with the two-record feed USDC@1, ETH@2000 the initial
state selects distinct tokens, and reselecting ETH as the to-token swaps
the pair instead of duplicating it. -/
theorem claim_C2_noDuplicatePair_witness :
    ((initState [⟨"USDC", 1⟩, ⟨"ETH", 2000⟩]).fromToken =
        some ⟨"ETH", 2000, tokenIconUrl "ETH"⟩) ∧
    ((initState [⟨"USDC", 1⟩, ⟨"ETH", 2000⟩]).toToken =
        some ⟨"USDC", 1, tokenIconUrl "USDC"⟩) ∧
    (Token.mk "ETH" 2000 (tokenIconUrl "ETH")).currency ≠
      (Token.mk "USDC" 1 (tokenIconUrl "USDC")).currency ∧
    ((step (initState [⟨"USDC", 1⟩, ⟨"ETH", 2000⟩])
        (.selectToToken ⟨"ETH", 2000, tokenIconUrl "ETH"⟩)).toToken =
      some ⟨"ETH", 2000, tokenIconUrl "ETH"⟩) ∧
    ((step (initState [⟨"USDC", 1⟩, ⟨"ETH", 2000⟩])
        (.selectToToken ⟨"ETH", 2000, tokenIconUrl "ETH"⟩)).fromToken =
      (initState [⟨"USDC", 1⟩, ⟨"ETH", 2000⟩]).toToken) := by
  have h := claim_C2_noDuplicatePair [⟨"USDC", 1⟩, ⟨"ETH", 2000⟩] _ Reachable.init
  have h2 := h.2.1 ⟨"ETH", 2000, tokenIconUrl "ETH"⟩ ⟨"ETH", 2000, tokenIconUrl "ETH"⟩
    (by decide) rfl
  exact ⟨by decide, by decide,
    h.1 ⟨"ETH", 2000, tokenIconUrl "ETH"⟩ ⟨"USDC", 1, tokenIconUrl "USDC"⟩
      (by decide) (by decide), h2.1, h2.2⟩

/-- C3: in every reachable state whose amount parses to a positive finite
value with both tokens selected, recomputation renders `toAmount` as the
amount times the spot-price ratio fixed to six decimals; when the parsed
amount is not positive (including `NaN`) or a token is missing,
`toAmount` is cleared.  Reachable states only hold catalog tokens, whose
prices are positive (`reachable_inv`), so the spec's non-positive-price
case cannot arise. -/
theorem claim_C3_quote (data : List RawTokenData) (s : AppState) (h : Reachable data s) :
    (∀ ft tt a, s.fromToken = some ft → s.toToken = some tt →
      jsParseFloat s.fromAmount = .val a → 0 < a →
      (recompute MOCK_BALANCE s).toAmount = toFixed6 (a * (ft.price / tt.price))) ∧
    (((jsParseFloat s.fromAmount).gtQ 0 = false ∨ s.fromToken = none ∨ s.toToken = none) →
      (recompute MOCK_BALANCE s).toAmount = "") := by
  obtain ⟨_h1, h2, h3, _h4⟩ := reachable_inv data s h
  constructor
  · intro ft tt a hft htt hpa ha
    have hfp : 0 < ft.price := h2 ft hft
    have htp : 0 < tt.price := h3 tt htt
    have g1 : (JsNum.val a).gtQ 0 = true := (qBlt_iff 0 a).mpr ha
    have g2 : decide (ft.price = 0) = false := decide_eq_false (ne_of_gt hfp)
    have g3 : decide (tt.price = 0) = false := decide_eq_false (ne_of_gt htp)
    rw [recompute_toAmount_some MOCK_BALANCE s ft tt hft htt, hpa, g1, g2, g3]
    show jsToFixed6 (JsNum.mulQ (.val a) (qDiv ft.price tt.price)) = _
    show toFixed6 (qMul a (qDiv ft.price tt.price)) = _
    rw [qMul_eq, qDiv_eq]
  · intro hcase
    rcases hcase with hg | hf | ht
    · cases hf : s.fromToken with
      | none => exact recompute_toAmount_none MOCK_BALANCE s (Or.inl hf)
      | some ft =>
        cases ht : s.toToken with
        | none => exact recompute_toAmount_none MOCK_BALANCE s (Or.inr ht)
        | some tt =>
          rw [recompute_toAmount_some MOCK_BALANCE s ft tt hf ht, hg]
          rfl
    · exact recompute_toAmount_none MOCK_BALANCE s (Or.inl hf)
    · exact recompute_toAmount_none MOCK_BALANCE s (Or.inr ht)

/-- Witness for C3 at the spec's example: prices 2000 and 1 with amount
text `"1"` produce `"2000.000000"`; the empty amount produces an empty
output. -/
theorem claim_C3_quote_witness :
    ((recompute MOCK_BALANCE
        (step (initState [⟨"USDC", 1⟩, ⟨"ETH", 2000⟩]) (.changeFromAmount "1"))).toAmount =
      "2000.000000") ∧
    ((recompute MOCK_BALANCE (initState [⟨"USDC", 1⟩, ⟨"ETH", 2000⟩])).toAmount = "") := by
  constructor
  · have h := claim_C3_quote [⟨"USDC", 1⟩, ⟨"ETH", 2000⟩] _
      (@Reachable.next [⟨"USDC", 1⟩, ⟨"ETH", 2000⟩] _ (.changeFromAmount "1")
        Reachable.init trivial)
    have h1 := h.1 ⟨"ETH", 2000, tokenIconUrl "ETH"⟩ ⟨"USDC", 1, tokenIconUrl "USDC"⟩ 1
      (by decide) (by decide) (by decide) (by decide)
    rw [h1]
    show toFixed6 ((1 : ℚ) * ((2000 : ℚ) / (1 : ℚ))) = _
    rw [show (1 : ℚ) * ((2000 : ℚ) / (1 : ℚ)) = (2000 : ℚ) by norm_num]
    decide
  · have h := claim_C3_quote [⟨"USDC", 1⟩, ⟨"ETH", 2000⟩] _ Reachable.init
    exact h.2 (Or.inl (by decide))

/-- C5: while a from-token is selected and the amount parses to the finite
value `a`, recomputation reports the insufficient-balance error exactly
when `a` strictly exceeds the balance, and leaves the error clear exactly
when `a` is at most the balance (so an amount equal to the balance is not
an error). -/
theorem claim_C5_insufficientBalance (b : ℚ) (s : AppState) (ft : Token) (a : ℚ)
    (hft : s.fromToken = some ft) (hpa : jsParseFloat s.fromAmount = .val a) :
    ((recompute b s).error = insufficientMsg ft.currency ↔ b < a) ∧
    ((recompute b s).error = "" ↔ a ≤ b) := by
  have he := recompute_error_some b s ft hft
  rw [hpa] at he
  have hmsg : insufficientMsg ft.currency ≠ "" := by
    rw [insufficientMsg]
    intro hcontra
    have hlen := congrArg String.length hcontra
    have h13 : ("Insufficient " : String).length = 13 := by decide
    have h8 : ((" balance" : String)).length = 8 := by decide
    have h0 : (("" : String)).length = 0 := by decide
    rw [String.length_append, String.length_append, h13, h8, h0] at hlen
    omega
  by_cases hab : b < a
  · have hg : (JsNum.val a).gtQ b = true := (qBlt_iff b a).mpr hab
    rw [hg] at he
    simp only [if_true] at he
    constructor
    · exact ⟨fun _ => hab, fun _ => he⟩
    · constructor
      · intro h0
        rw [he] at h0
        exact absurd h0 hmsg
      · intro h0
        exact absurd hab (not_lt.mpr h0)
  · have hg : (JsNum.val a).gtQ b = false := (qBlt_eq_false_iff b a).mpr (not_lt.mp hab)
    rw [hg] at he
    simp only [Bool.false_eq_true, if_false] at he
    constructor
    · constructor
      · intro h0
        rw [he] at h0
        exact absurd h0.symm hmsg
      · intro hlt
        exact absurd hlt hab
    · exact ⟨fun _ => not_lt.mp hab, fun _ => he⟩

/-- Witness for C5 at the balance boundary: with balance 10, the amount
text `"10"` yields no error while `"11"` yields the insufficient-balance
message. -/
theorem claim_C5_insufficientBalance_witness :
    ((recompute 10
        { tokens := []
          fromToken := some ⟨"ETH", 2000, tokenIconUrl "ETH"⟩
          toToken := none
          fromAmount := "10"
          toAmount := ""
          isFromModalOpen := false
          isToModalOpen := false
          searchTerm := ""
          error := ""
          isSwapping := false }).error = "") ∧
    ((recompute 10
        { tokens := []
          fromToken := some ⟨"ETH", 2000, tokenIconUrl "ETH"⟩
          toToken := none
          fromAmount := "11"
          toAmount := ""
          isFromModalOpen := false
          isToModalOpen := false
          searchTerm := ""
          error := ""
          isSwapping := false }).error = insufficientMsg "ETH") := by
  constructor
  · exact (claim_C5_insufficientBalance 10 _ ⟨"ETH", 2000, tokenIconUrl "ETH"⟩ 10 rfl
      (by decide)).2.mpr (by decide)
  · exact (claim_C5_insufficientBalance 10 _ ⟨"ETH", 2000, tokenIconUrl "ETH"⟩ 11 rfl
      (by decide)).1.mpr (by decide)

/-- C9: while no from-token is selected the recompute effect never reports
an error, whatever the entered amount. -/
theorem claim_C9_noErrorWithoutFromToken (b : ℚ) (s : AppState) (h : s.fromToken = none) :
    (recompute b s).error = "" :=
  recompute_error_none b s h

/-- Witness for C9: an amount a hundred thousand times the balance still
produces no error when no from-token is selected. -/
theorem claim_C9_noErrorWithoutFromToken_witness :
    jsParseFloat "1000000" = JsNum.val 1000000 ∧ (10 : ℚ) < 1000000 ∧
    ((recompute 10
        { tokens := []
          fromToken := none
          toToken := none
          fromAmount := "1000000"
          toAmount := ""
          isFromModalOpen := false
          isToModalOpen := false
          searchTerm := ""
          error := ""
          isSwapping := false }).error = "") :=
  ⟨by decide, by decide, claim_C9_noErrorWithoutFromToken 10 _ rfl⟩

/-- The acceptance condition of C6 as the spec words it: `Number(text)` is
a non-negative (finite) real value. -/
def parsesToNonnegReal (v : String) : Bool :=
  match jsNumber v with
  | .val q => qBle 0 q
  | _ => false

theorem handleFromAmountChange_accept_iff (v : String) :
    (decide (v = "") || ((jsNumber v).geQ 0 && !(jsNumber v).isNaN)) = true ↔
      (v = "" ∨ parsesToNonnegReal v = true ∨ jsNumber v = JsNum.posInf) := by
  cases hj : jsNumber v with
  | nan => simp [JsNum.geQ, JsNum.isNaN, parsesToNonnegReal, hj]
  | posInf => simp [JsNum.geQ, JsNum.isNaN, parsesToNonnegReal, hj]
  | negInf => simp [JsNum.geQ, JsNum.isNaN, parsesToNonnegReal, hj]
  | val q => simp [JsNum.geQ, JsNum.isNaN, parsesToNonnegReal, hj]

/-- Counterexample to C6 as stated: the text `"Infinity"` is neither empty
nor parsed by `Number` to a non-negative real number, yet
`handleFromAmountChange` accepts it (`Number("Infinity")` is `+∞ ≥ 0`)
and the machine state changes. -/
theorem claim_C6_counterexample :
    parsesToNonnegReal "Infinity" = false ∧ "Infinity" ≠ "" ∧
    (handleFromAmountChange (initState []) "Infinity").fromAmount = "Infinity" ∧
    step (initState []) (.changeFromAmount "Infinity") ≠ initState [] := by
  refine ⟨by decide, by decide, by decide, by decide⟩

/-- C6 amended: `ChangeFromAmount(text)` is accepted iff the text is empty
or `Number(text)` is non-NaN and non-negative, which besides the
non-negative reals also admits `+Infinity`; accepted text is stored
verbatim, and a rejected event leaves the entire state unchanged. -/
theorem claim_C6_amended (s : AppState) (v : String) :
    ((v = "" ∨ parsesToNonnegReal v = true ∨ jsNumber v = JsNum.posInf) →
      (handleFromAmountChange s v).fromAmount = v ∧
      (step s (.changeFromAmount v)).fromAmount = v) ∧
    (¬(v = "" ∨ parsesToNonnegReal v = true ∨ jsNumber v = JsNum.posInf) →
      handleFromAmountChange s v = s ∧ step s (.changeFromAmount v) = s) := by
  constructor
  · intro hacc
    have hb : (decide (v = "") || ((jsNumber v).geQ 0 && !(jsNumber v).isNaN)) = true :=
      (handleFromAmountChange_accept_iff v).mpr hacc
    have hh : handleFromAmountChange s v = { s with fromAmount := v } := by
      rw [handleFromAmountChange, if_pos hb]
    refine ⟨by rw [hh], ?_⟩
    show (if handleFromAmountChange s v = s then s
        else recompute MOCK_BALANCE (handleFromAmountChange s v)).fromAmount = v
    rw [hh]
    by_cases he : ({ s with fromAmount := v } : AppState) = s
    · rw [if_pos he]
      have hv : ({ s with fromAmount := v } : AppState).fromAmount = s.fromAmount := by
        rw [he]
      exact hv.symm
    · rw [if_neg he, recompute_fromAmount]
  · intro hrej
    have hb : ¬((decide (v = "") || ((jsNumber v).geQ 0 && !(jsNumber v).isNaN)) = true) :=
      fun hb => hrej ((handleFromAmountChange_accept_iff v).mp hb)
    have hh : handleFromAmountChange s v = s := by
      rw [handleFromAmountChange, if_neg hb]
    refine ⟨hh, ?_⟩
    show (if handleFromAmountChange s v = s then s
        else recompute MOCK_BALANCE (handleFromAmountChange s v)) = s
    rw [if_pos hh]

/-- Witness for C6 amended: `"1.5"` is accepted and stored verbatim;
`"abc"` is rejected and the machine state is untouched. -/
theorem claim_C6_amended_witness :
    (step (initState []) (.changeFromAmount "1.5")).fromAmount = "1.5" ∧
    step (initState []) (.changeFromAmount "abc") = initState [] :=
  ⟨((claim_C6_amended (initState []) "1.5").1 (Or.inr (Or.inl (by decide)))).2,
   ((claim_C6_amended (initState []) "abc").2 (by decide)).2⟩

theorem isButtonDisabled_eq_false_iff (s : AppState) :
    isButtonDisabled s = false ↔
      (s.fromAmount ≠ "" ∧ (jsParseFloat s.fromAmount).leQ 0 = false ∧
        s.error = "" ∧ s.isSwapping = false) := by
  rw [isButtonDisabled]
  simp only [Bool.or_eq_false_iff, decide_eq_false_iff_not, Bool.not_eq_false',
    decide_eq_true_eq]
  tauto

/-- Counterexample to C1 as stated: after entering the amount text `" "`
(accepted because `Number(" ")` is `0`), the amount does not parse to a
positive number (`parseFloat(" ")` is `NaN`), the error is clear and the
machine is not swapping, yet `TriggerSwap` is not ignored: the swap
button is enabled and the click moves the machine into `Swapping`. -/
theorem claim_C1_counterexample :
    Reachable [] (step (initState []) (.changeFromAmount " ")) ∧
    (jsParseFloat (step (initState []) (.changeFromAmount " ")).fromAmount).gtQ 0 = false ∧
    (step (initState []) (.changeFromAmount " ")).error = "" ∧
    (step (initState []) (.changeFromAmount " ")).isSwapping = false ∧
    step (step (initState []) (.changeFromAmount " ")) .triggerSwap ≠
      step (initState []) (.changeFromAmount " ") :=
  ⟨@Reachable.next [] _ (.changeFromAmount " ") Reachable.init trivial,
    by decide, by decide, by decide, by decide⟩

/-- C1 amended: `TriggerSwap` is ignored unless the amount text is
nonempty with `parseFloat` of it not a number at most zero (so a positive
parse or unparsable-but-nonempty text), the error is clear and no swap is
in flight; when those conditions hold the machine enters `Swapping`, and
the settle timer then clears both amounts, keeps the error clear and ends
`Swapping` — the `Idle` shape. -/
theorem claim_C1_amended (s : AppState) :
    (¬(s.fromAmount ≠ "" ∧ (jsParseFloat s.fromAmount).leQ 0 = false ∧
        s.error = "" ∧ s.isSwapping = false) →
      step s .triggerSwap = s) ∧
    ((s.fromAmount ≠ "" ∧ (jsParseFloat s.fromAmount).leQ 0 = false ∧
        s.error = "" ∧ s.isSwapping = false) →
      (step s .triggerSwap).isSwapping = true ∧
      (step (step s .triggerSwap) .settle).fromAmount = "" ∧
      (step (step s .triggerSwap) .settle).toAmount = "" ∧
      (step (step s .triggerSwap) .settle).error = "" ∧
      (step (step s .triggerSwap) .settle).isSwapping = false) := by
  constructor
  · intro hnc
    have hd : isButtonDisabled s = true := by
      rcases Bool.eq_false_or_eq_true (isButtonDisabled s) with h' | h'
      · exact h'
      · exact absurd ((isButtonDisabled_eq_false_iff s).mp h') hnc
    show (if isButtonDisabled s then s else handleSwapClick s) = s
    rw [hd]
    rfl
  · intro hc
    have hd : isButtonDisabled s = false := (isButtonDisabled_eq_false_iff s).mpr hc
    have hstep : step s .triggerSwap = { s with isSwapping := true } := by
      show (if isButtonDisabled s then s else handleSwapClick s) = _
      rw [hd]
      rfl
    have hsettle : step (step s .triggerSwap) .settle =
        recompute MOCK_BALANCE (settleTimer (step s .triggerSwap)) := by
      show (if (step s .triggerSwap).isSwapping then
          recompute MOCK_BALANCE (settleTimer (step s .triggerSwap))
        else step s .triggerSwap) = _
      rw [hstep]
      rfl
    have hempty : (settleTimer (step s .triggerSwap)).fromAmount = "" := rfl
    refine ⟨by rw [hstep], ?_, ?_, ?_, ?_⟩
    · rw [hsettle, recompute_fromAmount, hempty]
    · rw [hsettle]
      exact (recompute_empty_amount MOCK_BALANCE _ hempty).1
    · rw [hsettle]
      exact (recompute_empty_amount MOCK_BALANCE _ hempty).2
    · rw [hsettle, recompute_isSwapping]
      rfl

/-- Witness for C1 amended: after entering `"5"` from the empty-catalog
initial state the trigger conditions hold, the click enters `Swapping`
and the settle timer clears the amount; at the initial state itself (the
amount is empty) the trigger is ignored. -/
theorem claim_C1_amended_witness :
    (step (step (initState []) (.changeFromAmount "5")) .triggerSwap).isSwapping = true ∧
    (step (step (step (initState []) (.changeFromAmount "5")) .triggerSwap)
        .settle).fromAmount = "" ∧
    step (initState []) .triggerSwap = initState [] := by
  have h2 := (claim_C1_amended (step (initState []) (.changeFromAmount "5"))).2
    ⟨by decide, by decide, by decide, by decide⟩
  have h0 := (claim_C1_amended (initState [])).1 (by decide)
  exact ⟨h2.1, h2.2.1, h0⟩
